import Mathlib

/-!
Shallow embedding of `src/firmata.py` (Firmata analog reader: acquisition
loop, sampling-rate estimation, trailing-window selection, Welch-method
spectral step, band-power aggregation, throttled redraw, CSV export).

Python floats are modelled as rationals `ℚ`; Python float division, which
raises `ZeroDivisionError` on a zero divisor, is modelled by `pydiv`
returning `Except`.  `np.nan` results are modelled as `Option.none`.
The scipy call `signal.welch` is an external library function; loop-level
definitions are parameterised over an arbitrary `WelchFn`, so every theorem
about the loop holds for any PSD routine.
-/

/-- The fixed band table (lines 10-16 of the source): `(name, fmin, fmax)`. -/
def BANDS : List (String × ℚ × ℚ) :=
  [("delta", 1/2, 4), ("theta", 4, 8), ("alpha", 8, 13), ("beta", 13, 30), ("gamma", 30, 45)]

/-- Embedding of `np.trapz y x` over a list of `(x, y)` points:
sum of `(x2 - x1) * (y1 + y2) / 2` over consecutive points; `0` for fewer
than two points (in particular `np.trapz` of a single sample is `0.0`). -/
def trapzPairs : List (ℚ × ℚ) → ℚ
  | (x1, y1) :: (x2, y2) :: rest => (x2 - x1) * (y1 + y2) / 2 + trapzPairs ((x2, y2) :: rest)
  | _ => 0

/-- The boolean mask `idx = (freqs >= fmin) & (freqs <= fmax)` of
`bandpower` (line 20), applied to the paired `(freq, power)` bins. -/
def bandSel (freqs psd : List ℚ) (fmin fmax : ℚ) : List (ℚ × ℚ) :=
  (freqs.zip psd).filter fun q => decide (fmin ≤ q.1 ∧ q.1 ≤ fmax)

/-- Function `bandpower(freqs, psd, fmin, fmax)` (lines 19-23): `0.0` when no bin is
in range, otherwise `np.trapz(psd[idx], freqs[idx])`. -/
def bandpower (freqs psd : List ℚ) (fmin fmax : ℚ) : ℚ :=
  if bandSel freqs psd fmin fmax = [] then 0
  else trapzPairs (bandSel freqs psd fmin fmax)

/-- The in-loop sampling-rate estimate (lines 85-88):
`fs = (len(ts) - 1) / (ts[-1] - ts[0])` when the span is positive, else
`np.nan` (modelled as `none`). -/
def fsEstimate (ts : List ℚ) : Option ℚ :=
  if 0 < ts.getLastD 0 - ts.headD 0 then
    some (((ts.length : ℚ) - 1) / (ts.getLastD 0 - ts.headD 0))
  else none

/-- Python float division: raises `ZeroDivisionError` when the divisor is
zero (modelled as `Except.error ()`), otherwise returns the quotient. -/
def pydiv (a b : ℚ) : Except Unit ℚ :=
  if b = 0 then Except.error () else Except.ok (a / b)

/-- The end-of-run summary estimate in the `finally` block (lines 122-124):
`if ts: fs = (len(ts) - 1) / (ts[-1] - ts[0])`.  The guard checks only that
the buffer is non-empty; the division itself is unguarded Python float
division. `ok none` means the summary line is skipped (empty buffer). -/
def summaryFs (ts : List ℚ) : Except Unit (Option ℚ) :=
  if ts.isEmpty then Except.ok none
  else (pydiv ((ts.length : ℚ) - 1) (ts.getLastD 0 - ts.headD 0)).map some

/-- Embedding of `np.searchsorted(ts, x)` with the default `side='left'` on the sorted
buffer `ts`: the number of leading elements `< x`, i.e. the first index
whose element is `≥ x`. -/
def searchsortedLeft (ts : List ℚ) (x : ℚ) : ℕ :=
  (ts.takeWhile fun t => decide (t < x)).length

/-- Index `idx0 = np.searchsorted(ts, max(0.0, ts[-1] - window))` (lines 92-93). -/
def windowStart (ts : List ℚ) (W : ℚ) : ℕ :=
  searchsortedLeft ts (max 0 (ts.getLastD 0 - W))

/-- The trailing-window timestamp slice `ts[idx0:]` (line 95). -/
def windowSelect (ts : List ℚ) (W : ℚ) : List ℚ :=
  ts.drop (windowStart ts W)

/-- Type of the external `scipy.signal.welch` call:
`(yw, fs, nperseg) ↦ (f, Pxx)`.  Loop theorems hold for every such function. -/
abbrev WelchFn := List ℚ → ℚ → ℕ → List ℚ × List ℚ

/-- The guarded spectral step (lines 97-104): when the window slice has more
than 16 samples and strictly positive span, compute the window sample rate,
call `welch` with `nperseg = min(256, len(yw))` and set each bar to the
band power; otherwise leave the bar heights (the previous snapshot) as is. -/
def analysisStep (welch : WelchFn) (tw yw prevBars : List ℚ) : List ℚ :=
  if 16 < yw.length ∧ 0 < tw.getLastD 0 - tw.headD 0 then
    let fsw := ((yw.length : ℚ) - 1) / (tw.getLastD 0 - tw.headD 0)
    let fP := welch yw fsw (min 256 yw.length)
    BANDS.map fun b => bandpower fP.1 fP.2 b.2.1 b.2.2
  else prevBars

/-- The run configuration fields the loop logic reads (argparse args plus
the loop-start clock value `t_start`). -/
structure AcqConfig where
  duration : ℚ
  targetHz : ℚ
  window : ℚ
  csv : String
  tStart : ℚ

/-- One loop iteration's external inputs: the poll result `ain.read()`
(`none` = no fresh value), the clock read at the append (line 68) and the
clock read at `now = time.time()` (line 75). -/
structure AcqIter where
  v : Option ℚ
  tPoll : ℚ
  tNow : ℚ

/-- The loop's mutable state: the buffers `ts`/`ys`, `last_redraw`, and the
published bar heights (the current BandPowerSnapshot). -/
structure AcqState where
  ts : List ℚ
  ys : List ℚ
  lastRedraw : ℚ
  bars : List ℚ

/-- State before the first iteration: empty buffers, `last_redraw = 0.0`,
bars initialised to `[0] * len(BANDS)` (lines 50, 58, 63). -/
def initState : AcqState :=
  ⟨[], [], 0, List.replicate BANDS.length 0⟩

/-- Lines 66-69: if the poll returned a value, append
`time.time() - t_start` to `ts` and `v * 1023.0` to `ys`; otherwise leave
both buffers unchanged. -/
def appendSample (tStart : ℚ) (ts ys : List ℚ) (e : AcqIter) : List ℚ × List ℚ :=
  match e.v with
  | some x => (ts ++ [e.tPoll - tStart], ys ++ [x * 1023])
  | none => (ts, ys)

/-- The redraw gate `now - last_redraw > 0.1 and len(ts) > 2` (line 76),
evaluated on the post-append buffer. -/
abbrev gateCond (s : AcqState) (e : AcqIter) (ts : List ℚ) : Prop :=
  1/10 < e.tNow - s.lastRedraw ∧ 2 < ts.length

/-- The break condition `args.duration and ts and ts[-1] >= args.duration`
(line 110); a Python float is truthy exactly when non-zero, a list exactly
when non-empty. -/
abbrev breakCond (cfg : AcqConfig) (ts : List ℚ) : Prop :=
  cfg.duration ≠ 0 ∧ ts ≠ [] ∧ cfg.duration ≤ ts.getLastD 0

/-- One iteration of the `while True` body (lines 65-111): poll/append,
pace (sleep has no state effect), then — gated on `gateCond` — slice the
trailing window, run the spectral step and set `last_redraw = now`; finally
evaluate `breakCond`.  Returns (new state, gate fired?, loop breaks?).
The plotting calls (axis limits, `fs` label, canvas draw) write only to the
display and are not part of the state. -/
def loopIter (cfg : AcqConfig) (welch : WelchFn) (s : AcqState) (e : AcqIter) :
    AcqState × Bool × Bool :=
  let a := appendSample cfg.tStart s.ts s.ys e
  let broke := decide (breakCond cfg a.1)
  if gateCond s e a.1 then
    let i := windowStart a.1 cfg.window
    (⟨a.1, a.2, e.tNow, analysisStep welch (a.1.drop i) (a.2.drop i) s.bars⟩, true, broke)
  else
    (⟨a.1, a.2, s.lastRedraw, s.bars⟩, false, broke)

/-- Outcome of running the loop over a finite input trace: final state, the
list of gate firings (redraw time, buffer length at that firing) in order,
and whether the loop exited through the duration break. -/
structure AcqRun where
  state : AcqState
  firings : List (ℚ × ℕ)
  broke : Bool

/-- Run the loop body over a finite trace of iteration inputs, stopping at
the first iteration whose break condition holds.  A trace that ends without
the break firing models a still-running (or externally cancelled) loop. -/
def runLoopAux (cfg : AcqConfig) (welch : WelchFn) : AcqState → List AcqIter → AcqRun
  | s, [] => ⟨s, [], false⟩
  | s, e :: rest =>
    let r1 := loopIter cfg welch s e
    let fs1 : List (ℚ × ℕ) := if r1.2.1 then [(e.tNow, r1.1.ts.length)] else []
    if r1.2.2 then ⟨r1.1, fs1, true⟩
    else
      let r := runLoopAux cfg welch r1.1 rest
      ⟨r.state, fs1 ++ r.firings, r.broke⟩

/-- The export step of the `finally` block (lines 116-120): when a CSV path
is configured (`if args.csv:` — non-empty string), write the header row
`["t_sec", "adc_0_1023"]` and then `zip(ts, ys)`, one row per sample;
`none` models "no export destination configured". -/
def exportCsv (csv : String) (s : AcqState) : Option (List String × List (ℚ × ℚ)) :=
  if csv ≠ "" then some (["t_sec", "adc_0_1023"], s.ts.zip s.ys) else none

/-- A concrete PSD routine used only to instantiate loop theorems at
concrete inputs (the theorems themselves hold for every `WelchFn`). -/
def welchZero : WelchFn := fun _ _ _ => ([], [])

/-! ## Lemmas about the trapezoid sum -/

/-- The trapezoid sum over points with ascending abscissae and non-negative
ordinates is non-negative. -/
theorem trapzPairs_nonneg : ∀ l : List (ℚ × ℚ),
    List.Pairwise (fun p q : ℚ × ℚ => p.1 ≤ q.1) l → (∀ p ∈ l, 0 ≤ p.2) →
    0 ≤ trapzPairs l
  | [], _, _ => le_refl 0
  | [(_, _)], _, _ => le_refl 0
  | (x1, y1) :: (x2, y2) :: rest, hp, hy => by
    have h12 : x1 ≤ x2 := (List.pairwise_cons.mp hp).1 (x2, y2) (List.mem_cons_self _ _)
    have hy1 : 0 ≤ y1 := hy (x1, y1) (List.mem_cons_self _ _)
    have hy2 : 0 ≤ y2 := hy (x2, y2) (List.mem_cons_of_mem _ (List.mem_cons_self _ _))
    have ih := trapzPairs_nonneg ((x2, y2) :: rest) (List.pairwise_cons.mp hp).2
      (fun p hmem => hy p (List.mem_cons_of_mem _ hmem))
    have hterm : 0 ≤ (x2 - x1) * (y1 + y2) / 2 :=
      div_nonneg (mul_nonneg (by linarith) (by linarith)) (by norm_num)
    have : trapzPairs ((x1, y1) :: (x2, y2) :: rest)
        = (x2 - x1) * (y1 + y2) / 2 + trapzPairs ((x2, y2) :: rest) := rfl
    rw [this]
    exact add_nonneg hterm ih

/-! ## Claim theorems: band-power aggregation -/

/-- Claim C6: `bandpower` selects exactly the PSD bins with frequency in
`[fmin, fmax]` inclusive; if no bin is in range it returns exactly `0.0`;
otherwise it returns the trapezoidal integral of power over the selected
bins; and it is pure — identical inputs give identical outputs. -/
theorem bandpower_band_selection (freqs psd : List ℚ) (fmin fmax : ℚ) :
    (∀ q : ℚ × ℚ, q ∈ bandSel freqs psd fmin fmax ↔
      q ∈ freqs.zip psd ∧ fmin ≤ q.1 ∧ q.1 ≤ fmax)
    ∧ (bandSel freqs psd fmin fmax = [] → bandpower freqs psd fmin fmax = 0)
    ∧ (bandSel freqs psd fmin fmax ≠ [] →
        bandpower freqs psd fmin fmax = trapzPairs (bandSel freqs psd fmin fmax))
    ∧ (∀ freqs2 psd2 fmin2 fmax2, freqs = freqs2 → psd = psd2 → fmin = fmin2 → fmax = fmax2 →
        bandpower freqs psd fmin fmax = bandpower freqs2 psd2 fmin2 fmax2) := by
  refine ⟨?_, ?_, ?_, ?_⟩
  · intro q
    simp [bandSel, List.mem_filter]
  · intro h
    simp [bandpower, h]
  · intro h
    simp [bandpower, h]
  · rintro _ _ _ _ rfl rfl rfl rfl
    rfl

/-- Claim C6 witness: on a concrete in-range band, `bandpower` is the
trapezoid integral over the selected bins. -/
theorem bandpower_band_selection_witness :
    bandpower [1, 2, 3] [4, 5, 6] 2 3 = trapzPairs (bandSel [1, 2, 3] [4, 5, 6] 2 3) :=
  (bandpower_band_selection [1, 2, 3] [4, 5, 6] 2 3).2.2.1
    (by norm_num [bandSel, List.filter]; exact List.cons_ne_nil _ _)

/-- Claim C9: for a PSD with ascending frequencies, equal-length power
sequence and non-negative power values, every band power is non-negative. -/
theorem bandpower_nonneg (freqs psd : List ℚ) (fmin fmax : ℚ)
    (hlen : freqs.length = psd.length)
    (hasc : List.Pairwise (· ≤ ·) freqs)
    (hpow : ∀ y ∈ psd, 0 ≤ y) :
    0 ≤ bandpower freqs psd fmin fmax := by
  have hsub : (bandSel freqs psd fmin fmax).Sublist (freqs.zip psd) := List.filter_sublist _
  have hzip : List.Pairwise (fun p q : ℚ × ℚ => p.1 ≤ q.1) (freqs.zip psd) := by
    have hmap : List.map Prod.fst (freqs.zip psd) = freqs :=
      List.map_fst_zip _ _ (le_of_eq hlen)
    have h2 := hasc
    rw [← hmap] at h2
    exact List.pairwise_map.mp h2
  have hp : List.Pairwise (fun p q : ℚ × ℚ => p.1 ≤ q.1) (bandSel freqs psd fmin fmax) :=
    List.Pairwise.sublist hsub hzip
  have hy : ∀ p ∈ bandSel freqs psd fmin fmax, 0 ≤ p.2 := by
    intro p hmem
    have hz : p ∈ freqs.zip psd := hsub.subset hmem
    obtain ⟨p1, p2⟩ := p
    exact hpow p2 (List.of_mem_zip hz).2
  unfold bandpower
  split
  · exact le_refl 0
  · exact trapzPairs_nonneg _ hp hy

/-- Claim C9 witness: a concrete non-negative PSD gives a non-negative
band power. -/
theorem bandpower_nonneg_witness : 0 ≤ bandpower [1, 2] [3, 4] 0 10 :=
  bandpower_nonneg [1, 2] [3, 4] 0 10 (by norm_num)
    (by norm_num [List.pairwise_cons]) (by norm_num [List.forall_mem_cons])

/-- Claim C10: when exactly one PSD bin lies in the band, `bandpower`
returns `0.0` (the trapezoid integral of a single point), whatever that
bin's power value is. -/
theorem bandpower_single_bin (freqs psd : List ℚ) (fmin fmax : ℚ)
    (h : (bandSel freqs psd fmin fmax).length = 1) :
    bandpower freqs psd fmin fmax = 0 := by
  obtain ⟨p, hp⟩ := List.length_eq_one.mp h
  obtain ⟨x, y⟩ := p
  simp [bandpower, hp]
  rfl

/-- Claim C10 witness: the lone alpha-band bin at 10 Hz with power 7
contributes nothing. -/
theorem bandpower_single_bin_witness : bandpower [10] [7] 8 13 = 0 :=
  bandpower_single_bin [10] [7] 8 13 (by norm_num [bandSel, List.filter])

/-! ## Claim theorems: rate estimation -/

/-- Claim C1 (code bug): the end-of-run summary estimate is NOT guarded
against a degenerate buffer.  On the same one-sample buffer (`t = 1/2`,
zero span) the in-loop estimate returns the undefined marker (`np.nan`,
guarded by `if ts[-1] - ts[0] > 0`), but the `finally` block reaches
`(len(ts) - 1) / (ts[-1] - ts[0])` with a zero divisor, and Python float
division raises `ZeroDivisionError` instead of producing an undefined
marker. -/
theorem summaryFs_raises_on_single_sample :
    fsEstimate [1/2] = none ∧ summaryFs [1/2] = Except.error () := by
  constructor
  · norm_num [fsEstimate]
  · norm_num [summaryFs, pydiv, Except.map]

/-- For a strictly increasing chain starting above `a`, the last element
(with default `b`) stays above `a`. -/
theorem lt_getLastD_of_chain : ∀ (t : List ℚ) (a b : ℚ), a < b ->
    List.Chain' (fun x y => x < y) (b :: t) → a < t.getLastD b
  | [], _, _, hab, _ => hab
  | c :: t2, a, b, hab, hc => by
    have hbc : b < c := (List.chain'_cons.mp hc).1
    have ih := lt_getLastD_of_chain t2 b c hbc (List.chain'_cons.mp hc).2
    rw [List.getLastD_cons]
    linarith

/-- Claim C4: on a buffer of `n >= 2` strictly increasing timestamps the
in-loop rate estimate is defined and equals exactly
`(n - 1) / (t_last - t_first)`. -/
theorem fsEstimate_exact (ts : List ℚ) (h2 : 2 ≤ ts.length)
    (hinc : List.Chain' (fun x y => x < y) ts) :
    fsEstimate ts = some (((ts.length : ℚ) - 1) / (ts.getLastD 0 - ts.headD 0)) := by
  match ts, h2, hinc with
  | a :: b :: t, _, hinc =>
    have hab : a < b := (List.chain'_cons.mp hinc).1
    have hlast : a < t.getLastD b := lt_getLastD_of_chain t a b hab (List.chain'_cons.mp hinc).2
    have hspan : 0 < (a :: b :: t).getLastD 0 - (a :: b :: t).headD 0 := by
      rw [List.getLastD_cons, List.getLastD_cons]
      simp only [List.headD_cons]
      linarith
    unfold fsEstimate
    rw [if_pos hspan]

/-- Scenario C input: 50 samples spanning exactly 1 second. -/
def ts50 : List ℚ := [0, 1/98, 2/98, 3/98, 4/98, 5/98, 6/98, 7/98, 8/98, 9/98, 10/98, 11/98, 12/98, 13/98, 14/98, 15/98, 16/98, 17/98, 18/98, 19/98, 20/98, 21/98, 22/98, 23/98, 24/98, 25/98, 26/98, 27/98, 28/98, 29/98, 30/98, 31/98, 32/98, 33/98, 34/98, 35/98, 36/98, 37/98, 38/98, 39/98, 40/98, 41/98, 42/98, 43/98, 44/98, 45/98, 46/98, 47/98, 48/98, 1]

/-- Claim C4 witness: on the 50-sample, 1-second buffer the estimate is
exactly 49. -/
theorem fsEstimate_exact_witness :
    2 ≤ ts50.length ∧ List.Chain' (fun x y : ℚ => x < y) ts50 ∧ fsEstimate ts50 = some 49 := by
  refine ⟨by norm_num [ts50], by norm_num [ts50, List.chain'_cons], ?_⟩
  rw [fsEstimate_exact ts50 (by norm_num [ts50]) (by norm_num [ts50, List.chain'_cons])]
  norm_num [ts50, List.getLastD_cons]


/-! ## Claim theorems: window selection -/

/-- Dropping as many elements as the `takeWhile` prefix holds is `dropWhile`. -/
theorem drop_length_takeWhile (p : ℚ → Bool) :
    ∀ l : List ℚ, l.drop (l.takeWhile p).length = l.dropWhile p
  | [] => rfl
  | a :: l => by
    by_cases h : p a
    · simp [List.takeWhile_cons, List.dropWhile_cons, h, drop_length_takeWhile p l]
    · simp [List.takeWhile_cons, List.dropWhile_cons, h]

/-- On a sorted list, dropping the `< thr` prefix keeps exactly the
elements `≥ thr`. -/
theorem sorted_dropWhile_lt (thr : ℚ) :
    ∀ l : List ℚ, List.Pairwise (· ≤ ·) l →
      l.dropWhile (fun t => decide (t < thr)) = l.filter fun t => decide (thr ≤ t)
  | [], _ => rfl
  | a :: l, h => by
    obtain ⟨ha, hl⟩ := List.pairwise_cons.mp h
    by_cases hc : a < thr
    · simp [List.dropWhile_cons, List.filter_cons, hc, not_le.mpr hc,
        sorted_dropWhile_lt thr l hl]
    · have hthr : thr ≤ a := not_lt.mp hc
      have hall : ∀ b ∈ l, (fun t => decide (thr ≤ t)) b = true := by
        intro b hb
        simpa using le_trans hthr (ha b hb)
      simp [List.dropWhile_cons, List.filter_cons, hc, hthr, List.filter_eq_self.mpr hall]

/-- Claim C3: on a buffer with ascending, non-negative timestamps (the
SampleBuffer invariant: timestamps are seconds since loop start, appended
in clock order), the window slice is a suffix of the buffer, equals the
sub-sequence of samples with `timestamp >= t_last - W` (so every returned
sample meets the bound and none meeting it is omitted), and the empty
buffer yields the empty slice. -/
theorem windowSelect_trailing (ts : List ℚ) (W : ℚ)
    (hs : List.Pairwise (· ≤ ·) ts) (hn : ∀ t ∈ ts, 0 ≤ t) :
    windowSelect ts W <:+ ts
    ∧ windowSelect ts W = ts.filter (fun t => decide (ts.getLastD 0 - W ≤ t))
    ∧ (∀ t ∈ windowSelect ts W, ts.getLastD 0 - W ≤ t)
    ∧ windowSelect ([] : List ℚ) W = [] := by
  have hdrop : windowSelect ts W
      = ts.dropWhile fun t => decide (t < max 0 (ts.getLastD 0 - W)) := by
    unfold windowSelect windowStart searchsortedLeft
    exact drop_length_takeWhile _ ts
  have hfil2 : windowSelect ts W = ts.filter fun t => decide (ts.getLastD 0 - W ≤ t) := by
    rw [hdrop, sorted_dropWhile_lt _ ts hs]
    refine List.filter_congr ?_
    intro x hx
    have h0 : 0 ≤ x := hn x hx
    exact decide_eq_decide.mpr (by rw [max_le_iff]; exact and_iff_right h0)
  refine ⟨?_, hfil2, ?_, rfl⟩
  · unfold windowSelect
    exact List.drop_suffix _ _
  · intro t ht
    rw [hfil2] at ht
    exact of_decide_eq_true (List.mem_filter.mp ht).2

/-- Claim C3 witness: with `W = 2` on timestamps `[0, 1, 2, 3]` the window
slice is exactly the samples with timestamp `≥ 3 - 2`. -/
theorem windowSelect_trailing_witness :
    windowSelect [0, 1, 2, 3] 2
      = List.filter (fun t => decide (List.getLastD [0, 1, 2, 3] 0 - 2 ≤ t)) [0, 1, 2, 3] :=
  (windowSelect_trailing [0, 1, 2, 3] 2 (by norm_num [List.pairwise_cons])
    (by norm_num [List.forall_mem_cons])).2.1

/-! ## Claim theorems: the spectral-step gate -/

/-- Claim C5: whenever the window slice has 16 or fewer samples or a
non-positive time span, the spectral step is skipped and the previous bar
heights are returned unchanged; only with more than 16 samples and a
strictly positive span is a new PSD computed, with segment length
`min(256, window_sample_count)`, and aggregated into fresh bar heights. -/
theorem analysisStep_gate (welch : WelchFn) (tw yw prev : List ℚ) :
    (yw.length ≤ 16 ∨ tw.getLastD 0 - tw.headD 0 ≤ 0 →
      analysisStep welch tw yw prev = prev)
    ∧ (16 < yw.length → 0 < tw.getLastD 0 - tw.headD 0 →
        analysisStep welch tw yw prev
          = BANDS.map fun b =>
              bandpower
                (welch yw (((yw.length : ℚ) - 1) / (tw.getLastD 0 - tw.headD 0))
                  (min 256 yw.length)).1
                (welch yw (((yw.length : ℚ) - 1) / (tw.getLastD 0 - tw.headD 0))
                  (min 256 yw.length)).2
                b.2.1 b.2.2) := by
  constructor
  · intro h
    unfold analysisStep
    rw [if_neg]
    rintro ⟨h1, h2⟩
    rcases h with h | h
    · exact absurd h1 (not_lt.mpr h)
    · exact absurd h2 (not_lt.mpr h)
  · intro h1 h2
    unfold analysisStep
    rw [if_pos ⟨h1, h2⟩]

/-- Claim C5 witness: an empty window slice (0 ≤ 16 samples) leaves the
previous snapshot `[1, 2, 3]` untouched. -/
theorem analysisStep_gate_witness :
    analysisStep welchZero [] [] [1, 2, 3] = [1, 2, 3] :=
  (analysisStep_gate welchZero [] [] [1, 2, 3]).1 (Or.inl (by simp))


/-! ## Loop unfolding lemmas -/

/-- The state produced by an iteration on which the redraw gate fires:
appended buffers, `last_redraw = now`, bars recomputed on the trailing
window. -/
def firedState (cfg : AcqConfig) (welch : WelchFn) (s : AcqState) (e : AcqIter) : AcqState :=
  ⟨(appendSample cfg.tStart s.ts s.ys e).1, (appendSample cfg.tStart s.ts s.ys e).2,
    e.tNow,
    analysisStep welch
      ((appendSample cfg.tStart s.ts s.ys e).1.drop
        (windowStart (appendSample cfg.tStart s.ts s.ys e).1 cfg.window))
      ((appendSample cfg.tStart s.ts s.ys e).2.drop
        (windowStart (appendSample cfg.tStart s.ts s.ys e).1 cfg.window))
      s.bars⟩

/-- The state produced by an iteration on which the redraw gate does not
fire: only the buffers change. -/
def skipState (cfg : AcqConfig) (s : AcqState) (e : AcqIter) : AcqState :=
  ⟨(appendSample cfg.tStart s.ts s.ys e).1, (appendSample cfg.tStart s.ts s.ys e).2,
    s.lastRedraw, s.bars⟩

/-- Unfolding of `loopIter` when the redraw gate fires. -/
theorem loopIter_fired (cfg : AcqConfig) (welch : WelchFn) (s : AcqState) (e : AcqIter)
    (hg : gateCond s e (appendSample cfg.tStart s.ts s.ys e).1) :
    loopIter cfg welch s e =
      (firedState cfg welch s e, true,
        decide (breakCond cfg (appendSample cfg.tStart s.ts s.ys e).1)) := by
  unfold loopIter firedState
  rw [if_pos hg]

/-- Unfolding of `loopIter` when the redraw gate does not fire. -/
theorem loopIter_skip (cfg : AcqConfig) (welch : WelchFn) (s : AcqState) (e : AcqIter)
    (hg : ¬ gateCond s e (appendSample cfg.tStart s.ts s.ys e).1) :
    loopIter cfg welch s e =
      (skipState cfg s e, false,
        decide (breakCond cfg (appendSample cfg.tStart s.ts s.ys e).1)) := by
  unfold loopIter skipState
  rw [if_neg hg]

/-- Unfolding of `runLoopAux` on a cons, when the first iteration breaks. -/
theorem runLoopAux_cons_break (cfg : AcqConfig) (welch : WelchFn) (s : AcqState)
    (e : AcqIter) (rest : List AcqIter)
    (hb : breakCond cfg (appendSample cfg.tStart s.ts s.ys e).1) :
    runLoopAux cfg welch s (e :: rest) =
      ⟨(loopIter cfg welch s e).1,
        if (loopIter cfg welch s e).2.1 then
          [(e.tNow, (loopIter cfg welch s e).1.ts.length)] else [],
        true⟩ := by
  have hb2 : (loopIter cfg welch s e).2.2 = true := by
    by_cases hg : gateCond s e (appendSample cfg.tStart s.ts s.ys e).1
    · rw [loopIter_fired cfg welch s e hg]
      exact decide_eq_true hb
    · rw [loopIter_skip cfg welch s e hg]
      exact decide_eq_true hb
  rw [runLoopAux]
  rw [hb2]
  simp

/-- Unfolding of `runLoopAux` on a cons, when the first iteration does not break. -/
theorem runLoopAux_cons_go (cfg : AcqConfig) (welch : WelchFn) (s : AcqState)
    (e : AcqIter) (rest : List AcqIter)
    (hb : ¬ breakCond cfg (appendSample cfg.tStart s.ts s.ys e).1) :
    runLoopAux cfg welch s (e :: rest) =
      ⟨(runLoopAux cfg welch (loopIter cfg welch s e).1 rest).state,
        (if (loopIter cfg welch s e).2.1 then
          [(e.tNow, (loopIter cfg welch s e).1.ts.length)] else [])
          ++ (runLoopAux cfg welch (loopIter cfg welch s e).1 rest).firings,
        (runLoopAux cfg welch (loopIter cfg welch s e).1 rest).broke⟩ := by
  have hb2 : (loopIter cfg welch s e).2.2 = false := by
    by_cases hg : gateCond s e (appendSample cfg.tStart s.ts s.ys e).1
    · rw [loopIter_fired cfg welch s e hg]
      exact decide_eq_false hb
    · rw [loopIter_skip cfg welch s e hg]
      exact decide_eq_false hb
  rw [runLoopAux]
  rw [hb2]
  simp

/-- Firing-time invariant: from any state, the current redraw stamp
followed by the recorded firing times is a chain with gaps strictly
greater than 0.1 s. -/
theorem runLoopAux_firings_chain (cfg : AcqConfig) (welch : WelchFn)
    (events : List AcqIter) : ∀ s : AcqState,
    List.Chain' (fun a b => a + 1/10 < b)
      (s.lastRedraw :: (runLoopAux cfg welch s events).firings.map Prod.fst) := by
  induction events with
  | nil =>
    intro s
    simp [runLoopAux]
  | cons e rest ih =>
    intro s
    by_cases hg : gateCond s e (appendSample cfg.tStart s.ts s.ys e).1
    · have hgap : s.lastRedraw + 1/10 < e.tNow := by
        have h1 := hg.1
        linarith
      by_cases hb : breakCond cfg (appendSample cfg.tStart s.ts s.ys e).1
      · rw [runLoopAux_cons_break cfg welch s e rest hb, loopIter_fired cfg welch s e hg]
        dsimp only
        rw [if_pos rfl]
        simp only [List.map_cons, List.map_nil]
        exact List.chain'_cons.mpr ⟨hgap, List.chain'_singleton _⟩
      · rw [runLoopAux_cons_go cfg welch s e rest hb, loopIter_fired cfg welch s e hg]
        dsimp only
        rw [if_pos rfl]
        simp only [List.singleton_append, List.map_cons]
        have ihs := ih (firedState cfg welch s e)
        have hlr : (firedState cfg welch s e).lastRedraw = e.tNow := rfl
        rw [hlr] at ihs
        exact List.chain'_cons.mpr ⟨hgap, ihs⟩
    · by_cases hb : breakCond cfg (appendSample cfg.tStart s.ts s.ys e).1
      · rw [runLoopAux_cons_break cfg welch s e rest hb, loopIter_skip cfg welch s e hg]
        dsimp only
        rw [if_neg Bool.false_ne_true]
        simp only [List.map_nil]
        exact List.chain'_singleton _
      · rw [runLoopAux_cons_go cfg welch s e rest hb, loopIter_skip cfg welch s e hg]
        dsimp only
        rw [if_neg Bool.false_ne_true]
        simp only [List.nil_append]
        have ihs := ih (skipState cfg s e)
        have hlr : (skipState cfg s e).lastRedraw = s.lastRedraw := rfl
        rw [hlr] at ihs
        exact ihs

/-- Buffer-size invariant: every recorded firing happened with at least 3
samples in the post-append buffer. -/
theorem runLoopAux_firings_size (cfg : AcqConfig) (welch : WelchFn)
    (events : List AcqIter) : ∀ s : AcqState,
    ∀ p ∈ (runLoopAux cfg welch s events).firings, 3 ≤ p.2 := by
  induction events with
  | nil =>
    intro s p hp
    simp [runLoopAux] at hp
  | cons e rest ih =>
    intro s p hp
    by_cases hg : gateCond s e (appendSample cfg.tStart s.ts s.ys e).1
    · by_cases hb : breakCond cfg (appendSample cfg.tStart s.ts s.ys e).1
      · rw [runLoopAux_cons_break cfg welch s e rest hb, loopIter_fired cfg welch s e hg] at hp
        dsimp only at hp
        rw [if_pos rfl] at hp
        rcases List.mem_singleton.mp hp with rfl
        exact hg.2
      · rw [runLoopAux_cons_go cfg welch s e rest hb, loopIter_fired cfg welch s e hg] at hp
        dsimp only at hp
        rw [if_pos rfl] at hp
        rw [List.singleton_append] at hp
        rcases List.mem_cons.mp hp with rfl | hmem
        · exact hg.2
        · exact ih (firedState cfg welch s e) p hmem
    · by_cases hb : breakCond cfg (appendSample cfg.tStart s.ts s.ys e).1
      · rw [runLoopAux_cons_break cfg welch s e rest hb, loopIter_skip cfg welch s e hg] at hp
        dsimp only at hp
        rw [if_neg Bool.false_ne_true] at hp
        exact absurd hp (List.not_mem_nil p)
      · rw [runLoopAux_cons_go cfg welch s e rest hb, loopIter_skip cfg welch s e hg] at hp
        dsimp only at hp
        rw [if_neg Bool.false_ne_true] at hp
        rw [List.nil_append] at hp
        exact ih (skipState cfg s e) p hp

/-! ## Claim theorems: throttle and acquisition -/

/-- Claim C7: (i) in every run the recorded recompute-and-publish firings
are separated by strictly more than 0.1 s of wall clock, so the path fires
at most once per 100 ms; (ii) every firing happens with at least 3 samples
in the buffer; (iii) acquisition is never throttled: whenever the poll
returns a value, the sample is appended to both buffers on that very
iteration, whether or not the gate fires. -/
theorem throttle_and_acquisition (cfg : AcqConfig) (welch : WelchFn) :
    (∀ events : List AcqIter,
      List.Chain' (fun a b => a + 1/10 < b)
        ((runLoopAux cfg welch initState events).firings.map Prod.fst))
    ∧ (∀ events : List AcqIter,
        ∀ p ∈ (runLoopAux cfg welch initState events).firings, 3 ≤ p.2)
    ∧ (∀ (s : AcqState) (e : AcqIter) (x : ℚ), e.v = some x →
        (loopIter cfg welch s e).1.ts = s.ts ++ [e.tPoll - cfg.tStart]
        ∧ (loopIter cfg welch s e).1.ys = s.ys ++ [x * 1023]) := by
  refine ⟨?_, ?_, ?_⟩
  · intro events
    exact (runLoopAux_firings_chain cfg welch events initState).tail
  · intro events
    exact runLoopAux_firings_size cfg welch events initState
  · intro s e x hx
    have ha : appendSample cfg.tStart s.ts s.ys e
        = (s.ts ++ [e.tPoll - cfg.tStart], s.ys ++ [x * 1023]) := by
      unfold appendSample
      rw [hx]
    by_cases hg : gateCond s e (appendSample cfg.tStart s.ts s.ys e).1
    · rw [loopIter_fired cfg welch s e hg]
      dsimp only
      unfold firedState
      rw [ha]
      exact ⟨rfl, rfl⟩
    · rw [loopIter_skip cfg welch s e hg]
      dsimp only
      unfold skipState
      rw [ha]
      exact ⟨rfl, rfl⟩

/-- Claim C7 witness: a concrete polled sample is appended on its own
iteration. -/
theorem throttle_and_acquisition_witness :
    (loopIter ⟨0, 100, 2, "", 0⟩ welchZero initState ⟨some 1, 3, 3⟩).1.ts = [] ++ [(3 : ℚ) - 0]
    ∧ (loopIter ⟨0, 100, 2, "", 0⟩ welchZero initState ⟨some 1, 3, 3⟩).1.ys
      = [] ++ [(1 : ℚ) * 1023] :=
  (throttle_and_acquisition ⟨0, 100, 2, "", 0⟩ welchZero).2.2 initState ⟨some 1, 3, 3⟩ 1 rfl

/-! ## Claim theorems: duration-based exit -/

/-- With `duration = 0` (Python falsy) the break condition never holds, so
the loop never exits on its own. -/
theorem runLoopAux_zero_duration (cfg : AcqConfig) (welch : WelchFn)
    (h0 : cfg.duration = 0) (events : List AcqIter) :
    ∀ s : AcqState, (runLoopAux cfg welch s events).broke = false := by
  induction events with
  | nil =>
    intro s
    rfl
  | cons e rest ih =>
    intro s
    have hb : ¬ breakCond cfg (appendSample cfg.tStart s.ts s.ys e).1 := by
      intro hc
      exact hc.1 h0
    rw [runLoopAux_cons_go cfg welch s e rest hb]
    dsimp only
    exact ih _

/-- Claim C2 (amended): the loop exits through the duration check exactly
at the end of an iteration whose post-append buffer is non-empty with last
sample timestamp `≥ duration` (and `duration` truthy, i.e. non-zero); when
such an iteration occurs the run stops there; with `duration = 0` the
duration check never fires and the loop runs until cancellation. -/
theorem loop_duration_exit (cfg : AcqConfig) (welch : WelchFn) (s : AcqState) (e : AcqIter)
    (events : List AcqIter) :
    ((loopIter cfg welch s e).2.2 = true ↔
      breakCond cfg (appendSample cfg.tStart s.ts s.ys e).1)
    ∧ (breakCond cfg (appendSample cfg.tStart s.ts s.ys e).1 →
        (runLoopAux cfg welch s (e :: events)).broke = true)
    ∧ (cfg.duration = 0 → (runLoopAux cfg welch s events).broke = false) := by
  refine ⟨?_, ?_, ?_⟩
  · by_cases hg : gateCond s e (appendSample cfg.tStart s.ts s.ys e).1
    · rw [loopIter_fired cfg welch s e hg]
      dsimp only
      simp only [decide_eq_true_eq]
    · rw [loopIter_skip cfg welch s e hg]
      dsimp only
      simp only [decide_eq_true_eq]
  · intro hb
    rw [runLoopAux_cons_break cfg welch s e events hb]
  · intro h0
    exact runLoopAux_zero_duration cfg welch h0 events s

/-- Claim C2 witness: with `duration = 0` a run does not exit on its own. -/
theorem loop_duration_exit_witness :
    (runLoopAux ⟨0, 100, 2, "", 0⟩ welchZero initState []).broke = false :=
  (loop_duration_exit ⟨0, 100, 2, "", 0⟩ welchZero initState ⟨none, 0, 0⟩ []).2.2 rfl

/-- Configuration with a positive 1-second duration (counterexample input). -/
def cfgD : AcqConfig := ⟨1, 100, 2, "", 0⟩

/-- An iteration 5 seconds after loop start on which the sensor produced
no fresh value. -/
def eNone : AcqIter := ⟨none, 5, 5⟩

/-- Claim C2 counterexample: 5 s of wall clock have elapsed since loop
start — far past the configured 1 s duration — yet the loop has not
exited, because the break condition tests the last sample timestamp of a
non-empty buffer and no sample was ever acquired. -/
theorem duration_elapsed_without_exit :
    0 < cfgD.duration ∧ cfgD.duration < eNone.tNow - cfgD.tStart
    ∧ (runLoopAux cfgD welchZero initState [eNone]).broke = false := by
  refine ⟨by norm_num [cfgD], by norm_num [cfgD, eNone], ?_⟩
  have hb : ¬ breakCond cfgD (appendSample cfgD.tStart initState.ts initState.ys eNone).1 := by
    intro hc
    exact hc.2.1 rfl
  rw [runLoopAux_cons_go cfgD welchZero initState eNone [] hb]
  rfl

/-! ## Claim theorems: export on exit -/

/-- Appending a sample keeps the two buffers the same length. -/
theorem appendSample_len (tStart : ℚ) (ts ys : List ℚ) (e : AcqIter)
    (h : ts.length = ys.length) :
    (appendSample tStart ts ys e).1.length = (appendSample tStart ts ys e).2.length := by
  cases hv : e.v <;> simp [appendSample, hv, h]

/-- The loop keeps `ts` and `ys` the same length from any balanced start. -/
theorem runLoopAux_len (cfg : AcqConfig) (welch : WelchFn) (events : List AcqIter) :
    ∀ s : AcqState, s.ts.length = s.ys.length →
      (runLoopAux cfg welch s events).state.ts.length
        = (runLoopAux cfg welch s events).state.ys.length := by
  induction events with
  | nil =>
    intro s h
    exact h
  | cons e rest ih =>
    intro s h
    have hl : (loopIter cfg welch s e).1.ts.length = (loopIter cfg welch s e).1.ys.length := by
      by_cases hg : gateCond s e (appendSample cfg.tStart s.ts s.ys e).1
      · rw [loopIter_fired cfg welch s e hg]
        exact appendSample_len cfg.tStart s.ts s.ys e h
      · rw [loopIter_skip cfg welch s e hg]
        exact appendSample_len cfg.tStart s.ts s.ys e h
    by_cases hb : breakCond cfg (appendSample cfg.tStart s.ts s.ys e).1
    · rw [runLoopAux_cons_break cfg welch s e rest hb]
      exact hl
    · rw [runLoopAux_cons_go cfg welch s e rest hb]
      exact ih (loopIter cfg welch s e).1 hl

/-- Claim C8: on loop exit with an export destination configured, the
export is produced (written once) with header `["t_sec", "adc_0_1023"]`
and body `zip(ts, ys)`: its first column is exactly the timestamp buffer
in acquisition order, its second column exactly the value buffer in
acquisition order, and it has one row per acquired sample. -/
theorem export_full_buffer (cfg : AcqConfig) (welch : WelchFn) (events : List AcqIter)
    (hcsv : cfg.csv ≠ "") :
    exportCsv cfg.csv (runLoopAux cfg welch initState events).state
      = some (["t_sec", "adc_0_1023"],
          (runLoopAux cfg welch initState events).state.ts.zip
            (runLoopAux cfg welch initState events).state.ys)
    ∧ ((runLoopAux cfg welch initState events).state.ts.zip
        (runLoopAux cfg welch initState events).state.ys).map Prod.fst
      = (runLoopAux cfg welch initState events).state.ts
    ∧ ((runLoopAux cfg welch initState events).state.ts.zip
        (runLoopAux cfg welch initState events).state.ys).map Prod.snd
      = (runLoopAux cfg welch initState events).state.ys
    ∧ ((runLoopAux cfg welch initState events).state.ts.zip
        (runLoopAux cfg welch initState events).state.ys).length
      = (runLoopAux cfg welch initState events).state.ts.length := by
  have hlen := runLoopAux_len cfg welch events initState rfl
  refine ⟨?_, ?_, ?_, ?_⟩
  · unfold exportCsv
    rw [if_pos hcsv]
  · exact List.map_fst_zip _ _ (le_of_eq hlen)
  · exact List.map_snd_zip _ _ (le_of_eq hlen.symm)
  · rw [List.length_zip, ← hlen, min_self]

/-- Claim C8 witness: with a configured path the export is produced with
the fixed header and the zipped buffers. -/
theorem export_full_buffer_witness :
    exportCsv ("out.csv") (runLoopAux ⟨0, 100, 2, "out.csv", 0⟩ welchZero initState []).state
      = some (["t_sec", "adc_0_1023"], ([] : List (ℚ × ℚ))) :=
  (export_full_buffer ⟨0, 100, 2, "out.csv", 0⟩ welchZero [] (by decide)).1
